import Mathlib

/-!
Verification of the CodeDoc documentation-generation pipeline.

The repository is a Django + React application whose core is a pipeline that
extracts structure from Python files, enriches it into generation requests,
calls the Gemini generation service with retry/backoff/fallback, and tracks
everything under a persisted `DocumentationJob` state machine.  The backend
Python modules (`gemini_services.py`, `repositories/views.py`,
`repositories/models.py`) are not part of the provided sources, only their
documentation and their frontend callers are; those parts are modelled from
the specification, and each such definition says so in its doc comment.  The
frontend polling client (`repositoryService.pollJobStatus` and
`generateDocumentation` in `services/repositoryService.js`) is present in the
sources and is embedded directly from the JavaScript.
-/

namespace CodeDoc

/-- Status of a single generated documentation item: `ok` for a real
generation, `fallback` after retries were exhausted, `blocked` after a safety
block. -/
inductive GStatus where
  | ok
  | fallback
  | blocked
deriving DecidableEq

/-- Kind of a generation request or result: function, class, or the
repository-level readme. -/
inductive GKind where
  | fn
  | cls
  | readme
deriving DecidableEq

/-- Location of the documented entity in the repository. -/
structure SourceRef where
  file_path : String
  line : Nat
deriving DecidableEq

/-- Modelled from the spec: a generation-ready request produced by the
context enhancer (`context_enhancer` is not under the provided sources).
`existing_docstring` carries the docstring found by the extractor, `none` for
undocumented entities. -/
structure GenerationRequest where
  kind : GKind
  target_name : String
  prompt_context : String
  existing_docstring : Option String
  source_ref : SourceRef
deriving DecidableEq

/-- Modelled from the spec: the outcome of generating documentation for one
request. -/
structure GenerationResult where
  kind : GKind
  target_name : String
  source_ref : SourceRef
  generated_text : String
  status : GStatus
deriving DecidableEq

/-- One response of the external generation service to a single attempt:
either generated text, a safety block, or a transient failure
(network error, rate limit, 5xx). -/
inductive CallResponse where
  | success (text : String)
  | blocked
  | transient
deriving DecidableEq

/-- Modelled from the spec: the retry budget of `GenerationClient.generate`
(`gemini_services.py` is not under the provided sources) — 3 attempts total. -/
def maxGenAttempts : Nat := 3

/-- Modelled from the spec: base delay of the exponential backoff, in
milliseconds. -/
def baseDelayMs : Nat := 1000

/-- Modelled from the spec: cap applied to the exponential backoff delay. -/
def maxDelayMs : Nat := 8000

/-- Modelled from the spec: delay waited before retry number `i + 1`
(base delay doubling each attempt, capped). -/
def backoffDelay (i : Nat) : Nat := min (baseDelayMs * 2 ^ i) maxDelayMs

/-- Modelled from the spec: `_generate_fallback_content` — the templated
placeholder used for fallback and blocked results, never empty. -/
def fallbackText (req : GenerationRequest) : String :=
  "TODO: Add documentation for " ++ req.target_name

/-- Builds the result record for a request from generated text and status. -/
def mkResult (req : GenerationRequest) (text : String) (st : GStatus) :
    GenerationResult :=
  { kind := req.kind
    target_name := req.target_name
    source_ref := req.source_ref
    generated_text := text
    status := st }

/-- Modelled from the spec: the attempt loop of `GenerationClient.generate`.
`resp` gives the service's response to each attempt (0-indexed), `attempt` is
the index of the next attempt and the last argument is the remaining attempt
budget.  Returns the produced result together with the number of attempts
consumed.  A success produces `ok`; a safety block is never retried and
produces `blocked` with fallback text; a transient failure is retried until
the budget is exhausted, after which a `fallback` result with fallback text is
produced instead of propagating the error. -/
def generateGo (req : GenerationRequest) (resp : Nat → CallResponse)
    (attempt : Nat) : Nat → GenerationResult × Nat
  | 0 => (mkResult req (fallbackText req) GStatus.fallback, attempt)
  | fuel + 1 =>
    match resp attempt with
    | CallResponse.success t => (mkResult req t GStatus.ok, attempt + 1)
    | CallResponse.blocked =>
      (mkResult req (fallbackText req) GStatus.blocked, attempt + 1)
    | CallResponse.transient => generateGo req resp (attempt + 1) fuel

/-- Modelled from the spec: `GenerationClient.generate` — total; every
request yields a result, item failures never propagate. -/
def generate (req : GenerationRequest) (resp : Nat → CallResponse) :
    GenerationResult :=
  (generateGo req resp 0 maxGenAttempts).1

/-- Number of service calls `generate` performs for a request. -/
def generateAttempts (req : GenerationRequest) (resp : Nat → CallResponse) :
    Nat :=
  (generateGo req resp 0 maxGenAttempts).2

/-- Does the character list start with the given character list? -/
def startsWithCh : List Char → List Char → Bool
  | _, [] => true
  | [], _ :: _ => false
  | a :: as, b :: bs => a == b && startsWithCh as bs

/-- Does the first character list contain the second as a contiguous
substring? -/
def containsCh : List Char → List Char → Bool
  | [], sub => sub.isEmpty
  | a :: as, sub => startsWithCh (a :: as) sub || containsCh as sub

/-- Substring test on strings, via their character lists. -/
def containsStr (s sub : String) : Bool := containsCh s.data sub.data

/-- Lower-cases every character of a string. -/
def toLowerStr (s : String) : String := String.mk (s.data.map Char.toLower)

/-- Whitespace characters used by the sanitizer's tokenizer. -/
def isWsChar (c : Char) : Bool :=
  c == ' ' || c == '\n' || c == '\t' || c == '\r'

/-- Splits a character stream into whitespace-separated tokens; `cur` holds
the reversed characters of the token being read. -/
def splitWsGo (cur : List Char) : List Char → List String
  | [] => if cur.isEmpty then [] else [String.mk cur.reverse]
  | c :: cs =>
    if isWsChar c then
      if cur.isEmpty then splitWsGo [] cs
      else String.mk cur.reverse :: splitWsGo [] cs
    else splitWsGo (c :: cur) cs

/-- Splits a string into whitespace-separated tokens, dropping empty ones. -/
def splitWs (s : String) : List String := splitWsGo [] s.data

/-- Splits a character list at its first `=` sign, if any. -/
def breakEq : List Char → Option (List Char × List Char)
  | [] => none
  | c :: cs =>
    if c = '=' then some ([], cs)
    else
      match breakEq cs with
      | none => none
      | some (k, v) => some (c :: k, v)

/-- Reads a token of the form `key=value` with nonempty key and value. -/
def keyValOf (t : String) : Option (String × String) :=
  match breakEq t.data with
  | some (k, v) =>
    if k.isEmpty || v.isEmpty then none else some (String.mk k, String.mk v)
  | none => none

/-- Modelled from the spec: the deny-list of secret-like key names used by
`_sanitize_content` (`gemini_services.py` is not under the provided
sources). -/
def denyKeys : List String := ["password", "secret", "token", "key"]

/-- Does a key name match the deny-list, case-insensitively? -/
def keyMatchesDeny (k : String) : Bool :=
  denyKeys.any (fun d => containsStr (toLowerStr k) d)

/-- Is the token a `key=value` assignment whose key matches the secret
deny-list? -/
def isSecretAssign (t : String) : Bool :=
  match keyValOf t with
  | some (k, _) => keyMatchesDeny k
  | none => false

/-- Key part of a `key=value` token (empty when the token is not one). -/
def keyOf (t : String) : String :=
  match keyValOf t with
  | some (k, _) => k
  | none => ""

/-- The fixed placeholder written over a redacted secret value. -/
def redactedPlaceholder : String := "[REDACTED]"

/-- Is the token shaped like a bare URL? -/
def isUrlLike (t : String) : Bool := containsStr t "://"

/-- Is the token shaped like an email address? -/
def isEmailLike (t : String) : Bool := containsStr t "@" && containsStr t "."

/-- Is the token shaped like a bearer token (long unbroken alphanumeric
run)? -/
def isBearerLike (t : String) : Bool :=
  decide (20 ≤ t.length) && t.data.all (fun c => c.isAlphanum)

/-- Redacts a token that matches one of the sensitive shapes, leaving other
tokens untouched. -/
def redactShape (t : String) : String :=
  if isUrlLike t then "[REDACTED_URL]"
  else if isEmailLike t then "[REDACTED_EMAIL]"
  else if isBearerLike t then "[REDACTED_TOKEN]"
  else t

/-- Modelled from the spec: per-token redaction of `_sanitize_content`.  A
deny-listed `key=value` assignment keeps its key and has the value span
replaced by the fixed placeholder; otherwise URL-, email- and bearer-shaped
tokens are replaced wholesale. -/
def redactToken (t : String) : String :=
  if isSecretAssign t then keyOf t ++ "=" ++ redactedPlaceholder
  else redactShape t

/-- Joins tokens back with single spaces. -/
def joinTokens : List String → String
  | [] => ""
  | [t] => t
  | t :: ts => t ++ " " ++ joinTokens ts

/-- Modelled from the spec: `_sanitize_content` — deterministic, total
redaction of sensitive substrings applied to every prompt before it leaves
the process boundary.  Replaces each matched span with a fixed placeholder
and preserves the surrounding text. -/
def sanitize (text : String) : String :=
  joinTokens ((splitWs text).map redactToken)

/-- Modelled from the spec: a shallow structural fact about one function
(`ast_utils` is not under the provided sources). -/
structure FunctionFact where
  name : String
  line : Nat
  params : List String
  docstring : Option String
deriving DecidableEq

/-- Modelled from the spec: a shallow structural fact about one class. -/
structure ClassFact where
  name : String
  line : Nat
  base_names : List String
  docstring : Option String
deriving DecidableEq

/-- Modelled from the spec: the typed fact model the structure extractor
produces for one file; functions and classes are listed in source order. -/
structure FileStructure where
  path : String
  module_docstring : Option String
  functions : List FunctionFact
  classes : List ClassFact
deriving DecidableEq

/-- Repository metadata handed to the context enhancer. -/
structure RepoContext where
  repo_name : String
deriving DecidableEq

/-- Request for documenting one undocumented function of a file. -/
def mkFunReq (fs : FileStructure) (f : FunctionFact) : GenerationRequest :=
  { kind := GKind.fn
    target_name := f.name
    prompt_context :=
      "def " ++ f.name ++ "(" ++ String.intercalate ", " f.params ++ ")"
    existing_docstring := f.docstring
    source_ref := { file_path := fs.path, line := f.line } }

/-- Request for documenting one undocumented class of a file. -/
def mkClassReq (fs : FileStructure) (c : ClassFact) : GenerationRequest :=
  { kind := GKind.cls
    target_name := c.name
    prompt_context :=
      "class " ++ c.name ++ "(" ++ String.intercalate ", " c.base_names ++ ")"
    existing_docstring := c.docstring
    source_ref := { file_path := fs.path, line := c.line } }

/-- Modelled from the spec: the per-file half of `ContextEnhancer.enhance` —
one request per function and class whose docstring is absent, in source
order; entities that already have a docstring are skipped. -/
def undocReqs (fs : FileStructure) : List GenerationRequest :=
  (fs.functions.filter (fun f => f.docstring.isNone)).map (mkFunReq fs) ++
    (fs.classes.filter (fun c => c.docstring.isNone)).map (mkClassReq fs)

/-- Number of undocumented entities of a file. -/
def undocCount (fs : FileStructure) : Nat := (undocReqs fs).length

/-- Names of the undocumented entities of a file, in source order. -/
def undocNames (fs : FileStructure) : List String :=
  (undocReqs fs).map (fun r => r.target_name)

/-- Modelled from the spec: the single repository-level readme request of a
batch, summarizing aggregate counts. -/
def readmeRequest (repo : RepoContext) (files : List FileStructure) :
    GenerationRequest :=
  { kind := GKind.readme
    target_name := repo.repo_name
    prompt_context :=
      "repository " ++ repo.repo_name ++ " with " ++
        toString (files.map (fun fs => fs.functions.length)).sum ++
        " functions and " ++
        toString (files.map (fun fs => fs.classes.length)).sum ++ " classes"
    existing_docstring := none
    source_ref := { file_path := "", line := 0 } }

/-- Modelled from the spec: `ContextEnhancer.enhance` over a repository
batch — per-file requests for every undocumented entity plus exactly one
readme request. -/
def enhanceBatch (repo : RepoContext) (files : List FileStructure) :
    List GenerationRequest :=
  ((files.map undocReqs).flatten) ++ [readmeRequest repo files]

/-- One file's group of results inside the assembled document. -/
structure FileDoc where
  file_path : String
  items : List GenerationResult
deriving DecidableEq

/-- Aggregate statistics of the assembled document. -/
structure DocStats where
  files_processed : Nat
  total_functions : Nat
  total_classes : Nat
  documentation_items : Nat
deriving DecidableEq

/-- The assembled document stored on a completed job. -/
structure Document where
  readme : String
  files : List FileDoc
  stats : DocStats
deriving DecidableEq

/-- First occurrences of the elements of a list, skipping everything already
in `seen`; keeps the order of first appearance. -/
def firstOccurAux (seen : List String) : List String → List String
  | [] => []
  | p :: ps =>
    if p ∈ seen then firstOccurAux seen ps
    else p :: firstOccurAux (p :: seen) ps

/-- The distinct elements of a list in order of first appearance. -/
def firstOccur (l : List String) : List String := firstOccurAux [] l

/-- Modelled from the spec: `DocumentAssembler.assemble` — groups the
results by `source_ref.file_path` preserving the original order, stores the
readme text separately and computes counting statistics
(`repositories/views.py` is not under the provided sources). -/
def assembleDoc (readmeRes : GenerationResult)
    (results : List GenerationResult) : Document :=
  let paths := firstOccur (results.map (fun r => r.source_ref.file_path))
  { readme := readmeRes.generated_text
    files := paths.map (fun p =>
      { file_path := p
        items := results.filter (fun r => decide (r.source_ref.file_path = p)) })
    stats :=
      { files_processed := paths.length
        total_functions :=
          (results.filter (fun r => decide (r.kind = GKind.fn))).length
        total_classes :=
          (results.filter (fun r => decide (r.kind = GKind.cls))).length
        documentation_items := results.length } }

/-- Escapes one character for the JSON rendering. -/
def escChar (c : Char) : String :=
  if c = '"' then "\\\""
  else if c = '\\' then "\\\\"
  else if c = '\n' then "\\n"
  else String.singleton c

/-- Escapes a string for the JSON rendering. -/
def jsonEscape (s : String) : String :=
  s.data.foldr (fun c acc => escChar c ++ acc) ""

/-- Quotes a string as a JSON string literal. -/
def jsonStr (s : String) : String := "\"" ++ jsonEscape s ++ "\""

/-- Serializes one result as a JSON object. -/
def serializeResult (r : GenerationResult) : String :=
  "\x7b\"name\":" ++ jsonStr r.target_name ++ ",\"file\":" ++
    jsonStr r.source_ref.file_path ++ ",\"line\":" ++
    toString r.source_ref.line ++ ",\"text\":" ++ jsonStr r.generated_text ++
    "\x7d"

/-- Serializes one file group as a JSON object. -/
def serializeFileDoc (fd : FileDoc) : String :=
  "\x7b\"file_path\":" ++ jsonStr fd.file_path ++ ",\"items\":[" ++
    String.intercalate "," (fd.items.map serializeResult) ++ "]\x7d"

/-- Modelled from the spec: the deterministic JSON rendering of the
assembled document persisted in `generated_docs`. -/
def serializeDoc (d : Document) : String :=
  "\x7b\"readme\":" ++ jsonStr d.readme ++ ",\"files\":[" ++
    String.intercalate "," (d.files.map serializeFileDoc) ++
    "],\"stats\":\x7b\"files_processed\":" ++ toString d.stats.files_processed ++
    ",\"documentation_items\":" ++ toString d.stats.documentation_items ++
    "\x7d\x7d"

/-- Lifecycle states of a `DocumentationJob`. -/
inductive JobStatus where
  | pending
  | processing
  | completed
  | failed
deriving DecidableEq

/-- Modelled from the spec: the allowed lifecycle transitions of a
`DocumentationJob` — `pending → processing → completed | failed`, nothing
else. -/
def allowedTransition : JobStatus → JobStatus → Bool
  | JobStatus.pending, JobStatus.processing => true
  | JobStatus.processing, JobStatus.completed => true
  | JobStatus.processing, JobStatus.failed => true
  | _, _ => false

/-- Position of a status along the one-directional lifecycle; both terminal
states share the final rank. -/
def statusRank : JobStatus → Nat
  | JobStatus.pending => 0
  | JobStatus.processing => 1
  | JobStatus.completed => 2
  | JobStatus.failed => 2

/-- A step observed by a poller: either the status is unchanged or it moved
along an allowed transition. -/
def statusStep (a b : JobStatus) : Prop := a = b ∨ allowedTransition a b = true

/-- Modelled from the spec: the persisted state of a `DocumentationJob`
(`repositories/models.py` is not under the provided sources). -/
structure JobState where
  status : JobStatus
  file_count : Nat
  processed_files : Nat
  progress_percentage : ℚ
  error_message : Option String
  generated_docs : Option Document
deriving DecidableEq

/-- Modelled from the spec: `progress_percentage = processed_files /
file_count * 100`, guarded to 0 when `file_count = 0`. -/
def computeProgress (processed fileCount : Nat) : ℚ :=
  if fileCount = 0 then 0 else (processed : ℚ) / (fileCount : ℚ) * 100

/-- Modelled from the spec: a job is created `pending` with zero progress. -/
def newJob (fileCount : Nat) : JobState :=
  { status := JobStatus.pending
    file_count := fileCount
    processed_files := 0
    progress_percentage := 0
    error_message := none
    generated_docs := none }

/-- Modelled from the spec: on start the orchestrator moves the job from
`pending` to `processing`. -/
def startJob (j : JobState) : JobState := { j with status := JobStatus.processing }

/-- Modelled from the spec: after each item completes (any status) the
orchestrator increments `processed_files` and persists the recomputed
progress immediately. -/
def recordItem (j : JobState) : JobState :=
  { j with
    processed_files := j.processed_files + 1
    progress_percentage := computeProgress (j.processed_files + 1) j.file_count }

/-- Runs the progress updates for a list of results, returning the final
job state and the list of all observable intermediate states (the input
state first). -/
def processWithProgress (j : JobState) :
    List GenerationResult → JobState × List JobState
  | [] => (j, [j])
  | _ :: rs =>
    let p := processWithProgress (recordItem j) rs
    (p.1, j :: p.2)

/-- The fixed human-readable message recorded when the whole batch raises
before producing any result. -/
def crashErrorMessage : String := "Documentation generation failed"

/-- The fixed human-readable message recorded when no documentation item
could be produced at all. -/
def noItemsMessage : String := "No documentation items could be generated"

/-- Modelled from the spec: job finalization — `failed` only when no result
at all was produced, `completed` otherwise, storing the assembled
document. -/
def finishJob (j : JobState) (readmeRes : GenerationResult)
    (results : List GenerationResult) : JobState :=
  if results.isEmpty then
    { j with status := JobStatus.failed, error_message := some noItemsMessage }
  else
    { j with
      status := JobStatus.completed
      generated_docs := some (assembleDoc readmeRes results) }

/-- Generates results for a list of requests; `oracle i` gives the service's
responses for the request at position `i` (offset by the starting index). -/
def processItemsFrom (oracle : Nat → Nat → CallResponse) :
    Nat → List GenerationRequest → List GenerationResult
  | _, [] => []
  | i, r :: rs => generate r (oracle i) :: processItemsFrom oracle (i + 1) rs

/-- How one whole batch run goes: either the generation loop runs (with the
given per-item and readme response oracles) or the whole call path raises
before producing any result. -/
inductive BatchCall where
  | ran (oracle : Nat → Nat → CallResponse) (readmeOracle : Nat → CallResponse)
  | crashed

/-- Modelled from the spec: the job a catastrophic whole-batch failure
leaves behind — `failed` with the fixed human-readable message, never a raw
stack trace. -/
def crashJob (j : JobState) : JobState :=
  { j with
    status := JobStatus.failed, error_message := some crashErrorMessage }

/-- Modelled from the spec: `BatchOrchestrator.run` as the task wrapper runs
it — start the job, process every request while updating progress, then
finalize; a crash of the whole call path before any result is produced is
caught and recorded as a `failed` job.  Returns the final job state and the
list of every observable job state in order. -/
def runBatch (requests : List GenerationRequest)
    (readmeReq : GenerationRequest) (call : BatchCall) :
    JobState × List JobState :=
  let j0 := newJob requests.length
  let j1 := startJob j0
  match call with
  | BatchCall.crashed =>
    (crashJob j1, [j0, j1, crashJob j1])
  | BatchCall.ran oracle roracle =>
    let results := processItemsFrom oracle 0 requests
    let p := processWithProgress j1 results
    let jf := finishJob p.1 (generate readmeReq roracle) results
    (jf, j0 :: p.2 ++ [jf])

/-- Modelled from the spec: the whole pipeline for one repository batch —
enhance the file structures into requests, generate every item, generate the
readme, and assemble the document. -/
def runPipeline (repo : RepoContext) (files : List FileStructure)
    (oracle : Nat → Nat → CallResponse) (roracle : Nat → CallResponse) :
    Document :=
  assembleDoc (generate (readmeRequest repo files) roracle)
    (processItemsFrom oracle 0 ((files.map undocReqs).flatten))

/-- One response of the job-status endpoint observed by the frontend poller:
either a job payload (represented by its status) or a request error carrying
a message. -/
inductive PollResp where
  | ok (status : JobStatus)
  | err (msg : String)
deriving DecidableEq

/-- Outcome of the frontend polling promise: resolve with the job or reject
with an error message. -/
inductive PollOutcome where
  | resolved (status : JobStatus)
  | rejected (msg : String)
deriving DecidableEq

/-- Terminal statuses the frontend poller stops on
(`job.status === completed || job.status === failed`). -/
def isTerminalStatus : JobStatus → Bool
  | JobStatus.completed => true
  | JobStatus.failed => true
  | _ => false

/-- The `maxAttempts` bound of `repositoryService.pollJobStatus`. -/
def pollMaxAttempts : Nat := 60

/-- Poll interval of `repositoryService.pollJobStatus`, in milliseconds. -/
def pollIntervalMs : Nat := 5000

/-- The consumption of one window of poll responses, from
`repositoryService.pollJobStatus`: each tick increments the attempt counter
and fetches the job; a terminal status resolves, a request error rejects
immediately, and running out of the window rejects with the timeout
message. -/
def pollList : List PollResp → PollOutcome
  | [] => PollOutcome.rejected "Job polling timeout"
  | PollResp.err m :: _ => PollOutcome.rejected m
  | PollResp.ok st :: xs =>
    if isTerminalStatus st then PollOutcome.resolved st else pollList xs

/-- Embedded from `repositoryService.pollJobStatus`: polls the job endpoint every 5
seconds, at most 60 times; `resp k` is the response to the `k`-th poll. -/
def pollJobStatus (resp : Nat → PollResp) : PollOutcome :=
  pollList ((List.range pollMaxAttempts).map resp)

/-- Embedded from `repositoryService.generateDocumentation`: triggers generation and then
awaits `pollJobStatus`, so it returns exactly what the polling resolves
with. -/
def generateDocumentation (resp : Nat → PollResp) : PollOutcome :=
  pollJobStatus resp

/-- A poll response that lets the polling loop continue: a job payload whose
status is not terminal. -/
def okNonTerminal (x : PollResp) : Prop :=
  ∃ s, x = PollResp.ok s ∧ isTerminalStatus s = false

/-- A concrete request used to instantiate theorems with hypotheses. -/
def sampleReq : GenerationRequest :=
  { kind := GKind.fn
    target_name := "foo"
    prompt_context := "def foo()"
    existing_docstring := none
    source_ref := { file_path := "a.py", line := 1 } }

/-- A concrete readme request used to instantiate theorems with
hypotheses. -/
def sampleReadmeReq : GenerationRequest :=
  { kind := GKind.readme
    target_name := "repo"
    prompt_context := "repository repo"
    existing_docstring := none
    source_ref := { file_path := "", line := 0 } }

/-- A concrete file structure used to instantiate theorems with
hypotheses. -/
def sampleFile : FileStructure :=
  { path := "a.py"
    module_docstring := none
    functions :=
      [{ name := "foo", line := 1, params := [], docstring := none },
       { name := "bar", line := 9, params := ["x"], docstring := some "doc" }]
    classes := [{ name := "C", line := 20, base_names := [], docstring := none }] }

/-- A concrete repository context used to instantiate theorems with
hypotheses. -/
def sampleRepo : RepoContext := { repo_name := "repo" }

/-! ### Lemmas about the generation client -/

/-- The generation client copies kind, target name and source reference of
the request into the result, whatever the service answers. -/
theorem generateGo_fields (req : GenerationRequest) (resp : Nat → CallResponse) :
    ∀ fuel attempt,
      (generateGo req resp attempt fuel).1.kind = req.kind ∧
      (generateGo req resp attempt fuel).1.target_name = req.target_name ∧
      (generateGo req resp attempt fuel).1.source_ref = req.source_ref := by
  intro fuel
  induction fuel with
  | zero => intro attempt; simp [generateGo, mkResult]
  | succ n ih =>
    intro attempt
    cases h : resp attempt with
    | success t => simp [generateGo, h, mkResult]
    | blocked => simp [generateGo, h, mkResult]
    | transient => simpa [generateGo, h] using ih (attempt + 1)

/-- The attempt counter never exceeds the starting attempt plus the fuel. -/
theorem generateGo_attempts_le (req : GenerationRequest)
    (resp : Nat → CallResponse) :
    ∀ fuel attempt, (generateGo req resp attempt fuel).2 ≤ attempt + fuel := by
  intro fuel
  induction fuel with
  | zero => intro attempt; simp [generateGo]
  | succ n ih =>
    intro attempt
    cases h : resp attempt with
    | success t => simp [generateGo, h]
    | blocked => simp [generateGo, h]
    | transient =>
      have := ih (attempt + 1)
      simp only [generateGo, h]
      omega

/-- Every non-`ok` result of the client carries the templated fallback
text. -/
theorem generateGo_placeholder (req : GenerationRequest)
    (resp : Nat → CallResponse) :
    ∀ fuel attempt,
      (generateGo req resp attempt fuel).1.status = GStatus.ok ∨
      (generateGo req resp attempt fuel).1.generated_text = fallbackText req := by
  intro fuel
  induction fuel with
  | zero => intro attempt; right; simp [generateGo, mkResult]
  | succ n ih =>
    intro attempt
    cases h : resp attempt with
    | success t => left; simp [generateGo, h, mkResult]
    | blocked => right; simp [generateGo, h, mkResult]
    | transient => simpa [generateGo, h] using ih (attempt + 1)

/-- The templated fallback text is never the empty string. -/
theorem fallbackText_ne_empty (req : GenerationRequest) :
    fallbackText req ≠ "" := by
  intro h
  have hl := congrArg String.length h
  rw [fallbackText, String.length_append] at hl
  have h28 : ("TODO: Add documentation for " : String).length = 28 := rfl
  rw [h28] at hl
  simp at hl

/-- Each backoff delay is the previous one doubled, capped at the maximum
delay. -/
theorem backoffDelay_doubles (i : Nat) :
    backoffDelay (i + 1) = min (2 * backoffDelay i) maxDelayMs := by
  unfold backoffDelay
  have h : baseDelayMs * 2 ^ (i + 1) = 2 * (baseDelayMs * 2 ^ i) := by ring
  rw [h]
  generalize baseDelayMs * 2 ^ i = a
  omega

/-- Claim C2: `GenerationClient.generate` retries transient failures up to 3
attempts total with exponential backoff (base delay doubling, capped), and
when the retries are exhausted it returns a `fallback` result with non-empty
generated text instead of propagating the error (the client is a total
function, so a single item's failure never aborts the batch). -/
theorem generate_retries_then_falls_back (req : GenerationRequest)
    (resp : Nat → CallResponse)
    (h0 : resp 0 = CallResponse.transient)
    (h1 : resp 1 = CallResponse.transient)
    (h2 : resp 2 = CallResponse.transient) :
    (generate req resp).status = GStatus.fallback ∧
    (generate req resp).generated_text = fallbackText req ∧
    fallbackText req ≠ "" ∧
    generateAttempts req resp = maxGenAttempts ∧
    (∀ resp' : Nat → CallResponse,
      generateAttempts req resp' ≤ maxGenAttempts) ∧
    (∀ i, backoffDelay (i + 1) = min (2 * backoffDelay i) maxDelayMs) := by
  refine ⟨?_, ?_, fallbackText_ne_empty req, ?_, ?_, backoffDelay_doubles⟩
  · simp [generate, maxGenAttempts, generateGo, h0, h1, h2, mkResult]
  · simp [generate, maxGenAttempts, generateGo, h0, h1, h2, mkResult]
  · simp [generateAttempts, maxGenAttempts, generateGo, h0, h1, h2]
  · intro resp'
    simpa [generateAttempts] using
      generateGo_attempts_le req resp' maxGenAttempts 0

/-- Witness for claim C2 at a concrete request and an always-transient
service. -/
theorem generate_retries_then_falls_back_witness :
    (generate sampleReq (fun _ => CallResponse.transient)).status =
      GStatus.fallback ∧
    (generate sampleReq (fun _ => CallResponse.transient)).generated_text =
      fallbackText sampleReq :=
  ⟨(generate_retries_then_falls_back sampleReq
      (fun _ => CallResponse.transient) rfl rfl rfl).1,
   (generate_retries_then_falls_back sampleReq
      (fun _ => CallResponse.transient) rfl rfl rfl).2.1⟩

/-! ### The sanitizer -/

/-- Counterexample to claim C4 as stated: the input
`"abc123 api_key=abc123"` contains the deny-listed assignment
`api_key=abc123`, yet the sanitized output still contains the literal value
`abc123`, because the value also occurs outside the matched span and
redaction replaces only the matched span, preserving surrounding text. -/
theorem sanitize_keeps_value_outside_assignment :
    containsStr "abc123 api_key=abc123" "api_key=abc123" = true ∧
    isSecretAssign "api_key=abc123" = true ∧
    containsStr (sanitize "abc123 api_key=abc123") "abc123" = true := by
  refine ⟨by decide, by decide, by decide⟩

/-- Claim C4 (amended): `sanitize` is the deterministic, total, token-wise
redaction; every whitespace-delimited token that is a `key=value` assignment
with a deny-listed key has its value span replaced by the fixed placeholder,
URL-, email- and bearer-shaped tokens are replaced by placeholders, and on
the spec's example — where the secret value occurs only inside the
assignment — the output does not contain the literal value. -/
theorem sanitize_redacts_secrets :
    (∀ text, sanitize text = joinTokens ((splitWs text).map redactToken)) ∧
    (∀ t, isSecretAssign t = true →
      redactToken t = keyOf t ++ "=" ++ redactedPlaceholder) ∧
    (∀ t, isSecretAssign t = false → isUrlLike t = true →
      redactToken t = "[REDACTED_URL]") ∧
    (∀ t, isSecretAssign t = false → isUrlLike t = false →
      isEmailLike t = true → redactToken t = "[REDACTED_EMAIL]") ∧
    (∀ t, isSecretAssign t = false → isUrlLike t = false →
      isEmailLike t = false → isBearerLike t = true →
      redactToken t = "[REDACTED_TOKEN]") ∧
    containsStr (sanitize "use api_key=abc123 here") "abc123" = false := by
  refine ⟨fun _ => rfl, ?_, ?_, ?_, ?_, by decide⟩
  · intro t h; simp [redactToken, h]
  · intro t hs hu; simp [redactToken, redactShape, hs, hu]
  · intro t hs hu he; simp [redactToken, redactShape, hs, hu, he]
  · intro t hs hu he hb; simp [redactToken, redactShape, hs, hu, he, hb]

/-- Witness for the amended claim C4 at the spec's concrete token. -/
theorem sanitize_redacts_secrets_witness :
    redactToken "api_key=abc123" =
      keyOf "api_key=abc123" ++ "=" ++ redactedPlaceholder :=
  sanitize_redacts_secrets.2.1 "api_key=abc123" (by decide)

/-! ### The context enhancer -/

/-- Every per-file request targets a function or a class and carries no
existing docstring (only undocumented entities are enhanced). -/
theorem mem_undocReqs (fs : FileStructure) (r : GenerationRequest)
    (hr : r ∈ undocReqs fs) :
    (r.kind = GKind.fn ∨ r.kind = GKind.cls) ∧ r.existing_docstring = none := by
  rcases List.mem_append.mp hr with h | h
  · rcases List.mem_map.mp h with ⟨f, hf, rfl⟩
    have hd := (List.mem_filter.mp hf).2
    exact ⟨Or.inl rfl, by simpa [mkFunReq, Option.isNone_iff_eq_none] using hd⟩
  · rcases List.mem_map.mp h with ⟨c, hc, rfl⟩
    have hd := (List.mem_filter.mp hc).2
    exact ⟨Or.inr rfl, by simpa [mkClassReq, Option.isNone_iff_eq_none] using hd⟩

/-- Every request in the flattened per-file part is not a readme request. -/
theorem mem_flat_not_readme (files : List FileStructure)
    (r : GenerationRequest) (hr : r ∈ (files.map undocReqs).flatten) :
    ¬r.kind = GKind.readme := by
  rcases List.mem_flatten.mp hr with ⟨l, hl, hrl⟩
  rcases List.mem_map.mp hl with ⟨fs, _, rfl⟩
  rcases (mem_undocReqs fs r hrl).1 with h | h <;> simp [h]

/-- Claim C5: `ContextEnhancer.enhance` produces no request for entities with
a non-null docstring, exactly one request per undocumented function or class
(in source order), and exactly one readme request per repository batch. -/
theorem enhance_skips_documented (repo : RepoContext)
    (files : List FileStructure) :
    ((enhanceBatch repo files).filter
        (fun r => decide (r.kind = GKind.readme))).length = 1 ∧
    (enhanceBatch repo files).filter (fun r => decide (¬r.kind = GKind.readme)) =
      (files.map undocReqs).flatten ∧
    (∀ r ∈ enhanceBatch repo files,
      ¬r.kind = GKind.readme → r.existing_docstring = none) ∧
    (∀ fs, undocReqs fs =
      (fs.functions.filter (fun f => f.docstring.isNone)).map (mkFunReq fs) ++
        (fs.classes.filter (fun c => c.docstring.isNone)).map (mkClassReq fs)) := by
  refine ⟨?_, ?_, ?_, fun _ => rfl⟩
  · rw [enhanceBatch, List.filter_append]
    have h1 : (files.map undocReqs).flatten.filter
        (fun r => decide (r.kind = GKind.readme)) = [] := by
      apply List.filter_eq_nil_iff.mpr
      intro r hr
      simpa using mem_flat_not_readme files r hr
    rw [h1]
    simp [readmeRequest]
  · rw [enhanceBatch, List.filter_append]
    have h1 : (files.map undocReqs).flatten.filter
        (fun r => decide (¬r.kind = GKind.readme)) =
        (files.map undocReqs).flatten := by
      apply List.filter_eq_self.mpr
      intro r hr
      simpa using mem_flat_not_readme files r hr
    rw [h1]
    simp [readmeRequest]
  · intro r hr hk
    rcases List.mem_append.mp hr with h | h
    · rcases List.mem_flatten.mp h with ⟨l, hl, hrl⟩
      rcases List.mem_map.mp hl with ⟨fs, _, rfl⟩
      exact (mem_undocReqs fs r hrl).2
    · simp only [List.mem_singleton] at h
      subst h
      exact absurd rfl hk

/-- Witness for claim C5 at a concrete single-file batch. -/
theorem enhance_skips_documented_witness :
    ((enhanceBatch sampleRepo [sampleFile]).filter
        (fun r => decide (r.kind = GKind.readme))).length = 1 :=
  (enhance_skips_documented sampleRepo [sampleFile]).1

/-! ### Lemmas about the orchestrator run -/

/-- The observable state list always starts with the input state. -/
theorem processWithProgress_shape (j : JobState) (rs : List GenerationResult) :
    ∃ t, (processWithProgress j rs).2 = j :: t := by
  cases rs <;> exact ⟨_, rfl⟩

/-- Fields of the state the progress loop ends in. -/
theorem processWithProgress_final (rs : List GenerationResult) :
    ∀ j : JobState,
      (processWithProgress j rs).1.status = j.status ∧
      (processWithProgress j rs).1.file_count = j.file_count ∧
      (processWithProgress j rs).1.error_message = j.error_message ∧
      (processWithProgress j rs).1.generated_docs = j.generated_docs ∧
      (processWithProgress j rs).1.processed_files =
        j.processed_files + rs.length := by
  induction rs with
  | nil => intro j; simp [processWithProgress]
  | cons r rs ih =>
    intro j
    have h := ih (recordItem j)
    simp only [processWithProgress]
    refine ⟨h.1, ?_, h.2.2.1, h.2.2.2.1, ?_⟩
    · rw [h.2.1]; rfl
    · rw [h.2.2.2.2]; simp [recordItem]; omega

/-- Recording one item increments the processed counter. -/
theorem recordItem_processed (j : JobState) :
    (recordItem j).processed_files = j.processed_files + 1 := rfl

/-- Recording one item keeps the file count. -/
theorem recordItem_file_count (j : JobState) :
    (recordItem j).file_count = j.file_count := rfl

/-- Recording one item keeps the status. -/
theorem recordItem_status (j : JobState) :
    (recordItem j).status = j.status := rfl

/-- Fields of every observable state of the progress loop. -/
theorem processWithProgress_mem (rs : List GenerationResult) :
    ∀ j : JobState, ∀ s ∈ (processWithProgress j rs).2,
      s.status = j.status ∧ s.file_count = j.file_count ∧
      j.processed_files ≤ s.processed_files ∧
      s.processed_files ≤ j.processed_files + rs.length := by
  induction rs with
  | nil =>
    intro j s hs
    simp [processWithProgress] at hs
    subst hs
    exact ⟨rfl, rfl, le_refl _, by simp⟩
  | cons r rs ih =>
    intro j s hs
    simp only [processWithProgress, List.mem_cons] at hs
    rcases hs with rfl | hs
    · exact ⟨rfl, rfl, le_refl _, by simp⟩
    · have h := ih (recordItem j) s hs
      refine ⟨h.1, by rw [h.2.1]; rfl, ?_, ?_⟩
      · have h3 := h.2.2.1
        rw [recordItem_processed] at h3
        omega
      · have h4 := h.2.2.2
        rw [recordItem_processed] at h4
        simp only [List.length_cons]
        omega

/-- If the entering state's stored percentage matches the guarded formula,
then so does the stored percentage of every observable state of the loop. -/
theorem processWithProgress_progress (rs : List GenerationResult) :
    ∀ j : JobState,
      j.progress_percentage =
        computeProgress j.processed_files j.file_count →
      ∀ s ∈ (processWithProgress j rs).2,
        s.progress_percentage =
          computeProgress s.processed_files s.file_count := by
  induction rs with
  | nil =>
    intro j hj s hs
    simp [processWithProgress] at hs
    subst hs
    exact hj
  | cons r rs ih =>
    intro j hj s hs
    simp only [processWithProgress, List.mem_cons] at hs
    rcases hs with rfl | hs
    · exact hj
    · exact ih (recordItem j) rfl s hs

/-- The processed-files counter is non-decreasing along the observable
states of the loop. -/
theorem processWithProgress_chain (rs : List GenerationResult) :
    ∀ j : JobState,
      List.Chain' (fun a b => a.processed_files ≤ b.processed_files)
        (processWithProgress j rs).2 := by
  induction rs with
  | nil => intro j; simp [processWithProgress]
  | cons r rs ih =>
    intro j
    obtain ⟨t, ht⟩ := processWithProgress_shape (recordItem j) rs
    have hch := ih (recordItem j)
    rw [ht] at hch
    simp only [processWithProgress, ht]
    exact List.Chain'.cons (by simp [recordItem]) hch

/-- The state the loop ends in is among its observable states. -/
theorem processWithProgress_final_mem (rs : List GenerationResult) :
    ∀ j : JobState,
      (processWithProgress j rs).1 ∈ (processWithProgress j rs).2 := by
  induction rs with
  | nil => intro j; simp [processWithProgress]
  | cons r rs ih =>
    intro j
    simp only [processWithProgress, List.mem_cons]
    exact Or.inr (ih (recordItem j))

/-- The last observable state of the loop is the state it ends in. -/
theorem processWithProgress_getLast? (rs : List GenerationResult) :
    ∀ j : JobState,
      (processWithProgress j rs).2.getLast? =
        some (processWithProgress j rs).1 := by
  induction rs with
  | nil => intro j; simp [processWithProgress]
  | cons r rs ih =>
    intro j
    obtain ⟨t, ht⟩ := processWithProgress_shape (recordItem j) rs
    have h := ih (recordItem j)
    simp only [processWithProgress, ht] at h ⊢
    simpa using h

/-- The generation loop produces exactly one result per request. -/
theorem processItemsFrom_length (oracle : Nat → Nat → CallResponse) :
    ∀ i rs, (processItemsFrom oracle i rs).length = rs.length := by
  intro i rs
  induction rs generalizing i with
  | nil => simp [processItemsFrom]
  | cons r rs ih => simp [processItemsFrom, ih]

/-- The guarded percentage of zero processed items is zero. -/
theorem computeProgress_zero (n : Nat) : computeProgress 0 n = 0 := by
  unfold computeProgress
  split <;> simp

/-- The guarded percentage is never negative. -/
theorem computeProgress_nonneg (p n : Nat) : 0 ≤ computeProgress p n := by
  unfold computeProgress
  split
  · exact le_refl 0
  · positivity

/-- The guarded percentage never exceeds 100 while the counter stays within
the file count. -/
theorem computeProgress_le_100 (p n : Nat) (h : p ≤ n) :
    computeProgress p n ≤ 100 := by
  unfold computeProgress
  split
  · norm_num
  · rename_i hn
    have hn' : (0 : ℚ) < (n : ℚ) := by
      exact_mod_cast Nat.pos_of_ne_zero hn
    have hpn : (p : ℚ) ≤ (n : ℚ) := by exact_mod_cast h
    have h1 : (p : ℚ) / (n : ℚ) ≤ 1 := (div_le_one hn').mpr hpn
    calc (p : ℚ) / (n : ℚ) * 100 ≤ 1 * 100 :=
          mul_le_mul_of_nonneg_right h1 (by norm_num)
      _ = 100 := by norm_num

/-- Finalizing a job keeps its progress fields. -/
theorem finishJob_fields (j : JobState) (rr : GenerationResult)
    (results : List GenerationResult) :
    (finishJob j rr results).progress_percentage = j.progress_percentage ∧
    (finishJob j rr results).processed_files = j.processed_files ∧
    (finishJob j rr results).file_count = j.file_count := by
  unfold finishJob
  split <;> exact ⟨rfl, rfl, rfl⟩

/-- Every observable state of a batch run has the request count as file
count, a processed counter within it, and a stored percentage equal to the
guarded formula. -/
theorem runBatch_state_facts (requests : List GenerationRequest)
    (readmeReq : GenerationRequest) (call : BatchCall) :
    ∀ s ∈ (runBatch requests readmeReq call).2,
      s.file_count = requests.length ∧
      s.processed_files ≤ requests.length ∧
      s.progress_percentage =
        computeProgress s.processed_files s.file_count := by
  cases call with
  | crashed =>
    intro s hs
    simp only [runBatch, List.mem_cons, List.mem_singleton] at hs
    rcases hs with rfl | rfl | rfl | h
    · exact ⟨rfl, Nat.zero_le _, (computeProgress_zero _).symm⟩
    · exact ⟨rfl, Nat.zero_le _, (computeProgress_zero _).symm⟩
    · exact ⟨rfl, Nat.zero_le _, (computeProgress_zero _).symm⟩
    · cases h
  | ran oracle roracle =>
    intro s hs
    simp only [runBatch, List.mem_cons, List.mem_append,
      List.mem_singleton] at hs
    have hlen := processItemsFrom_length oracle 0 requests
    rcases hs with (rfl | hs) | (rfl | h)
    case inr.inr => cases h
    · exact ⟨rfl, Nat.zero_le _, (computeProgress_zero _).symm⟩
    · have hm := processWithProgress_mem (processItemsFrom oracle 0 requests)
        (startJob (newJob requests.length)) s hs
      have hp := processWithProgress_progress
        (processItemsFrom oracle 0 requests)
        (startJob (newJob requests.length))
        (by simpa [startJob, newJob] using (computeProgress_zero _).symm)
        s hs
      refine ⟨hm.2.1, ?_, hp⟩
      have := hm.2.2.2
      rw [hlen] at this
      simpa [startJob, newJob] using this
    · have hfin := processWithProgress_final
        (processItemsFrom oracle 0 requests) (startJob (newJob requests.length))
      have hmem := processWithProgress_final_mem
        (processItemsFrom oracle 0 requests) (startJob (newJob requests.length))
      have hm := processWithProgress_mem (processItemsFrom oracle 0 requests)
        (startJob (newJob requests.length)) _ hmem
      have hp := processWithProgress_progress
        (processItemsFrom oracle 0 requests)
        (startJob (newJob requests.length))
        (by simpa [startJob, newJob] using (computeProgress_zero _).symm)
        _ hmem
      have hff := finishJob_fields
        (processWithProgress (startJob (newJob requests.length))
          (processItemsFrom oracle 0 requests)).1
        (generate readmeReq roracle) (processItemsFrom oracle 0 requests)
      refine ⟨?_, ?_, ?_⟩
      · rw [hff.2.2, hm.2.1]; rfl
      · rw [hff.2.1, hfin.2.2.2.2, hlen]
        simp [startJob, newJob]
      · rw [hff.1, hff.2.1, hff.2.2]
        exact hp

/-- Claim C1: a batch run leaves the job `failed` exactly when the whole
call path raised before producing any result (equivalently, when every item
failed catastrophically — including the degenerate zero-requests batch);
otherwise the job is `completed` however many items ended `fallback` or
`blocked`.  A `failed` job carries a non-empty human-readable
`error_message` and a `completed` job carries the assembled document, so the
caller observes one of these two shapes, never a raw stack trace. -/
theorem job_failure_semantics (requests : List GenerationRequest)
    (readmeReq : GenerationRequest) (call : BatchCall) :
    ((runBatch requests readmeReq call).1.status = JobStatus.completed ∨
      (runBatch requests readmeReq call).1.status = JobStatus.failed) ∧
    ((runBatch requests readmeReq call).1.status = JobStatus.failed ↔
      (call = BatchCall.crashed ∨ requests = [])) ∧
    ((runBatch requests readmeReq call).1.status = JobStatus.failed →
      ∃ m, (runBatch requests readmeReq call).1.error_message = some m ∧
        m ≠ "") ∧
    ((runBatch requests readmeReq call).1.status = JobStatus.completed →
      ∃ d, (runBatch requests readmeReq call).1.generated_docs = some d) := by
  cases call with
  | crashed =>
    refine ⟨Or.inr rfl, ⟨fun _ => Or.inl rfl, fun _ => rfl⟩, ?_, ?_⟩
    · exact fun _ => ⟨crashErrorMessage, rfl, by decide⟩
    · intro h
      exact JobStatus.noConfusion h
  | ran oracle roracle =>
    cases requests with
    | nil =>
      refine ⟨Or.inr rfl, ⟨fun _ => Or.inr rfl, fun _ => rfl⟩, ?_, ?_⟩
      · exact fun _ => ⟨noItemsMessage, rfl, by decide⟩
      · intro h
        exact JobStatus.noConfusion h
    | cons r rs =>
      refine ⟨Or.inl rfl, ⟨?_, ?_⟩, ?_, ?_⟩
      · intro h
        exact JobStatus.noConfusion h
      · intro h
        rcases h with h | h
        · exact BatchCall.noConfusion h
        · exact List.noConfusion h
      · intro h
        exact JobStatus.noConfusion h
      · exact fun _ => ⟨_, rfl⟩

/-- Witness for claim C1: a crashed batch over one request ends `failed`
with the fixed message, and a normal batch over one request ends
`completed`. -/
theorem job_failure_semantics_witness :
    (runBatch [sampleReq] sampleReadmeReq BatchCall.crashed).1.status =
      JobStatus.failed ∧
    (runBatch [sampleReq] sampleReadmeReq
      (BatchCall.ran (fun _ _ => CallResponse.blocked)
        (fun _ => CallResponse.blocked))).1.status = JobStatus.completed := by
  constructor
  · exact (job_failure_semantics [sampleReq] sampleReadmeReq
      BatchCall.crashed).2.1.mpr (Or.inl rfl)
  · rcases (job_failure_semantics [sampleReq] sampleReadmeReq
      (BatchCall.ran (fun _ _ => CallResponse.blocked)
        (fun _ => CallResponse.blocked))).1 with h | h
    · exact h
    · exact absurd ((job_failure_semantics [sampleReq] sampleReadmeReq
        (BatchCall.ran (fun _ _ => CallResponse.blocked)
          (fun _ => CallResponse.blocked))).2.1.mp h)
        (by rintro (h' | h') <;> cases h')

/-- Claim C8: every observable job state of a batch run stores
`progress_percentage = processed_files / file_count * 100`, guarded to `0`
when `file_count = 0` rather than failing. -/
theorem progress_formula (requests : List GenerationRequest)
    (readmeReq : GenerationRequest) (call : BatchCall) (s : JobState)
    (hs : s ∈ (runBatch requests readmeReq call).2) :
    s.progress_percentage =
      if s.file_count = 0 then 0
      else (s.processed_files : ℚ) / (s.file_count : ℚ) * 100 :=
  (runBatch_state_facts requests readmeReq call s hs).2.2

/-- Witness for claim C8 at a concrete one-request run. -/
theorem progress_formula_witness :
    (runBatch [sampleReq] sampleReadmeReq
        (BatchCall.ran (fun _ _ => CallResponse.blocked)
          (fun _ => CallResponse.blocked))).1.progress_percentage =
      if (runBatch [sampleReq] sampleReadmeReq
        (BatchCall.ran (fun _ _ => CallResponse.blocked)
          (fun _ => CallResponse.blocked))).1.file_count = 0 then 0
      else ((runBatch [sampleReq] sampleReadmeReq
        (BatchCall.ran (fun _ _ => CallResponse.blocked)
          (fun _ => CallResponse.blocked))).1.processed_files : ℚ) /
        ((runBatch [sampleReq] sampleReadmeReq
        (BatchCall.ran (fun _ _ => CallResponse.blocked)
          (fun _ => CallResponse.blocked))).1.file_count : ℚ) * 100 :=
  progress_formula [sampleReq] sampleReadmeReq
    (BatchCall.ran (fun _ _ => CallResponse.blocked)
      (fun _ => CallResponse.blocked)) _
    (by simp [runBatch, processWithProgress, processItemsFrom])

/-- Claim C9: along the observable job states of a batch run the
`processed_files` counter never decreases, and `progress_percentage` always
lies in `[0, 100]`. -/
theorem progress_monotone (requests : List GenerationRequest)
    (readmeReq : GenerationRequest) (call : BatchCall) :
    List.Chain' (fun a b => a.processed_files ≤ b.processed_files)
      (runBatch requests readmeReq call).2 ∧
    ∀ s ∈ (runBatch requests readmeReq call).2,
      0 ≤ s.progress_percentage ∧ s.progress_percentage ≤ 100 := by
  refine ⟨?_, ?_⟩
  case refine_2 =>
    intro s hs
    have h := runBatch_state_facts requests readmeReq call s hs
    rw [h.2.2]
    refine ⟨computeProgress_nonneg _ _, ?_⟩
    apply computeProgress_le_100
    rw [h.1]
    exact h.2.1
  case refine_1 =>
    cases call with
    | crashed =>
      simp only [runBatch]
      refine List.Chain'.cons (by simp [newJob, startJob]) ?_
      exact List.Chain'.cons (by simp [startJob, crashJob]) (by simp)
    | ran oracle roracle =>
      simp only [runBatch]
      obtain ⟨t, ht⟩ := processWithProgress_shape
        (startJob (newJob requests.length))
        (processItemsFrom oracle 0 requests)
      rw [show (newJob requests.length ::
          (processWithProgress (startJob (newJob requests.length))
            (processItemsFrom oracle 0 requests)).2 ++
          [finishJob (processWithProgress (startJob (newJob requests.length))
              (processItemsFrom oracle 0 requests)).1
            (generate readmeReq roracle)
            (processItemsFrom oracle 0 requests)]) =
          ((newJob requests.length ::
            (processWithProgress (startJob (newJob requests.length))
              (processItemsFrom oracle 0 requests)).2) ++
          [finishJob (processWithProgress (startJob (newJob requests.length))
              (processItemsFrom oracle 0 requests)).1
            (generate readmeReq roracle)
            (processItemsFrom oracle 0 requests)]) from by simp]
      rw [List.chain'_append]
      refine ⟨?_, by simp, ?_⟩
      · rw [ht]
        refine List.Chain'.cons (by simp [newJob, startJob]) ?_
        have := processWithProgress_chain (processItemsFrom oracle 0 requests)
          (startJob (newJob requests.length))
        rwa [ht] at this
      · intro x hx y hy
        simp only [List.head?_cons, Option.mem_def, Option.some.injEq] at hy
        subst hy
        rw [show (newJob requests.length ::
            (processWithProgress (startJob (newJob requests.length))
              (processItemsFrom oracle 0 requests)).2).getLast? =
            (processWithProgress (startJob (newJob requests.length))
              (processItemsFrom oracle 0 requests)).2.getLast? from by
          rw [ht]; exact List.getLast?_cons_cons] at hx
        rw [processWithProgress_getLast?] at hx
        simp only [Option.mem_def, Option.some.injEq] at hx
        subst hx
        rw [(finishJob_fields _ _ _).2.1]

/-- Witness for claim C9 at a concrete one-request run. -/
theorem progress_monotone_witness :
    List.Chain' (fun a b => a.processed_files ≤ b.processed_files)
      (runBatch [sampleReq] sampleReadmeReq BatchCall.crashed).2 :=
  (progress_monotone [sampleReq] sampleReadmeReq BatchCall.crashed).1

/-- A run of `processing` states followed by one allowed final status is a
valid observation chain. -/
theorem chain_processing (f : JobStatus)
    (hf : allowedTransition JobStatus.processing f = true) :
    ∀ l : List JobStatus, (∀ s ∈ l, s = JobStatus.processing) →
      List.Chain' statusStep (JobStatus.processing :: l ++ [f]) := by
  intro l
  induction l with
  | nil =>
    intro _
    exact List.Chain'.cons (Or.inr hf) (List.chain'_singleton f)
  | cons x xs ih =>
    intro hall
    have hx : x = JobStatus.processing := hall x (by simp)
    subst hx
    refine List.Chain'.cons (Or.inl rfl) ?_
    exact ih (fun s hs => hall s (by simp [hs]))

/-- Every observable state of the body of the batch loop is `processing`. -/
theorem processWithProgress_status (rs : List GenerationResult) :
    ∀ j : JobState, ∀ s ∈ (processWithProgress j rs).2, s.status = j.status :=
  fun j s hs => (processWithProgress_mem rs j s hs).1

/-- Claim C7: jobs are created `pending`; the allowed transitions are
exactly `pending → processing → completed | failed`, they strictly increase
the lifecycle rank (no regression), nothing skips `processing`, both
`completed` and `failed` are terminal, and the status sequence observed over
any batch run only ever repeats a status or follows an allowed
transition. -/
theorem job_state_machine (requests : List GenerationRequest)
    (readmeReq : GenerationRequest) (call : BatchCall) :
    (∀ n, (newJob n).status = JobStatus.pending) ∧
    (∀ a b, allowedTransition a b = true → statusRank a < statusRank b) ∧
    allowedTransition JobStatus.pending JobStatus.completed = false ∧
    allowedTransition JobStatus.pending JobStatus.failed = false ∧
    (∀ b, allowedTransition JobStatus.completed b = false) ∧
    (∀ b, allowedTransition JobStatus.failed b = false) ∧
    List.Chain' statusStep
      ((runBatch requests readmeReq call).2.map (fun s => s.status)) := by
  refine ⟨fun _ => rfl, ?_, rfl, rfl, ?_, ?_, ?_⟩
  · intro a b h
    cases a <;> cases b <;> simp [allowedTransition] at h ⊢ <;>
      simp [statusRank]
  · intro b; cases b <;> rfl
  · intro b; cases b <;> rfl
  · cases call with
    | crashed =>
      refine List.Chain'.cons (Or.inr rfl) ?_
      exact List.Chain'.cons (Or.inr rfl) (List.chain'_singleton _)
    | ran oracle roracle =>
      simp only [runBatch]
      obtain ⟨t, ht⟩ := processWithProgress_shape
        (startJob (newJob requests.length))
        (processItemsFrom oracle 0 requests)
      have hstat := processWithProgress_status
        (processItemsFrom oracle 0 requests)
        (startJob (newJob requests.length))
      rw [ht] at hstat
      rw [ht]
      simp only [List.cons_append, List.map_cons, List.map_append,
        List.map_cons, List.map_nil]
      have hfin : allowedTransition JobStatus.processing
          (finishJob (processWithProgress (startJob (newJob requests.length))
              (processItemsFrom oracle 0 requests)).1
            (generate readmeReq roracle)
            (processItemsFrom oracle 0 requests)).status = true := by
        unfold finishJob
        split <;> rfl
      refine List.Chain'.cons (Or.inr rfl) ?_
      have hall : ∀ s ∈ t.map (fun s => s.status), s = JobStatus.processing := by
        intro s hs
        rcases List.mem_map.mp hs with ⟨x, hx, rfl⟩
        exact hstat x (by simp [hx])
      have := chain_processing _ hfin (t.map (fun s => s.status)) hall
      simpa [startJob, newJob] using this

/-- Witness for claim C7: the status chain of a concrete crashed run. -/
theorem job_state_machine_witness :
    List.Chain' statusStep
      ((runBatch [sampleReq] sampleReadmeReq BatchCall.crashed).2.map
        (fun s => s.status)) :=
  (job_state_machine [sampleReq] sampleReadmeReq BatchCall.crashed).2.2.2.2.2.2

/-! ### The frontend polling client -/

/-- A status is terminal exactly when it is `completed` or `failed`. -/
theorem isTerminalStatus_iff (st : JobStatus) :
    isTerminalStatus st = true ↔
      (st = JobStatus.completed ∨ st = JobStatus.failed) := by
  cases st <;> simp [isTerminalStatus]

/-- The poll loop only ever resolves with a terminal status. -/
theorem pollList_resolved_terminal :
    ∀ (rs : List PollResp) (st : JobStatus),
      pollList rs = PollOutcome.resolved st → isTerminalStatus st = true := by
  intro rs
  induction rs with
  | nil => intro st h; cases h
  | cons x xs ih =>
    intro st h
    cases x with
    | err m => cases h
    | ok s =>
      cases hb : isTerminalStatus s with
      | false =>
        rw [pollList, hb] at h
        exact ih st (by simpa using h)
      | true =>
        rw [pollList, hb] at h
        simp at h
        rcases h with ⟨rfl, _⟩
        exact hb

/-- A window of only non-terminal job payloads makes the poll loop reject
with the timeout message. -/
theorem pollList_timeout :
    ∀ rs : List PollResp, (∀ x ∈ rs, okNonTerminal x) →
      pollList rs = PollOutcome.rejected "Job polling timeout" := by
  intro rs
  induction rs with
  | nil => intro _; rfl
  | cons x xs ih =>
    intro h
    rcases h x (by simp) with ⟨s, rfl, hs⟩
    rw [pollList, hs]
    simp only [Bool.false_eq_true, if_false]
    exact ih (fun y hy => h y (by simp [hy]))

/-- The poll loop resolves with the first terminal status it sees. -/
theorem pollList_resolves :
    ∀ (pre : List PollResp) (s : JobStatus) (post : List PollResp),
      isTerminalStatus s = true → (∀ x ∈ pre, okNonTerminal x) →
      pollList (pre ++ PollResp.ok s :: post) = PollOutcome.resolved s := by
  intro pre
  induction pre with
  | nil =>
    intro s post hs _
    simp [pollList, hs]
  | cons x xs ih =>
    intro s post hs hpre
    rcases hpre x (by simp) with ⟨u, rfl, hu⟩
    rw [List.cons_append, pollList, hu]
    simp only [Bool.false_eq_true, if_false]
    exact ih s post hs (fun y hy => hpre y (by simp [hy]))

/-- The poll loop rejects with the first request error it hits. -/
theorem pollList_rejects_error :
    ∀ (pre : List PollResp) (m : String) (post : List PollResp),
      (∀ x ∈ pre, okNonTerminal x) →
      pollList (pre ++ PollResp.err m :: post) = PollOutcome.rejected m := by
  intro pre
  induction pre with
  | nil => intro m post _; rfl
  | cons x xs ih =>
    intro m post hpre
    rcases hpre x (by simp) with ⟨u, rfl, hu⟩
    rw [List.cons_append, pollList, hu]
    simp only [Bool.false_eq_true, if_false]
    exact ih m post (fun y hy => hpre y (by simp [hy]))

/-- Claim C10: `repositoryService.pollJobStatus` consumes the window of 60
polls taken at 5-second intervals; it resolves with the job exactly when a
poll returns `completed` or `failed` after only non-terminal payloads, it
rejects with `Job polling timeout` when all 60 polls stay non-terminal, it
rejects immediately with the request error otherwise, and consequently
`repositoryService.generateDocumentation` only ever returns a job in a
terminal state. -/
theorem pollJobStatus_terminal_only (resp : Nat → PollResp) :
    pollJobStatus resp = pollList ((List.range pollMaxAttempts).map resp) ∧
    pollMaxAttempts = 60 ∧
    (∀ st, pollJobStatus resp = PollOutcome.resolved st →
      isTerminalStatus st = true) ∧
    (∀ rs : List PollResp, (∀ x ∈ rs, okNonTerminal x) →
      pollList rs = PollOutcome.rejected "Job polling timeout") ∧
    (∀ (pre : List PollResp) (s : JobStatus) (post : List PollResp),
      isTerminalStatus s = true → (∀ x ∈ pre, okNonTerminal x) →
      pollList (pre ++ PollResp.ok s :: post) = PollOutcome.resolved s) ∧
    (∀ (pre : List PollResp) (m : String) (post : List PollResp),
      (∀ x ∈ pre, okNonTerminal x) →
      pollList (pre ++ PollResp.err m :: post) = PollOutcome.rejected m) ∧
    (∀ st, generateDocumentation resp = PollOutcome.resolved st →
      st = JobStatus.completed ∨ st = JobStatus.failed) := by
  refine ⟨rfl, rfl, ?_, pollList_timeout, pollList_resolves,
    pollList_rejects_error, ?_⟩
  · intro st h
    exact pollList_resolved_terminal _ st h
  · intro st h
    exact (isTerminalStatus_iff st).mp (pollList_resolved_terminal _ st h)

/-- Witness for claim C10: a first-poll `completed` response resolves with
the completed job. -/
theorem pollJobStatus_terminal_only_witness :
    pollList ([] ++ PollResp.ok JobStatus.completed :: []) =
      PollOutcome.resolved JobStatus.completed :=
  (pollJobStatus_terminal_only
      (fun _ => PollResp.ok JobStatus.pending)).2.2.2.2.1
    [] JobStatus.completed [] rfl (by simp)

/-! ### No silent drops: assembly covers every result exactly once -/

/-- The kind, target and source of a generated result are the request's. -/
theorem generate_fields (req : GenerationRequest) (resp : Nat → CallResponse) :
    (generate req resp).kind = req.kind ∧
    (generate req resp).target_name = req.target_name ∧
    (generate req resp).source_ref = req.source_ref :=
  generateGo_fields req resp maxGenAttempts 0

/-- The generation loop produces results in positional one-to-one
correspondence with the requests. -/
theorem processItemsFrom_forall2 (oracle : Nat → Nat → CallResponse) :
    ∀ i rs, List.Forall₂ (fun (res : GenerationResult) (req : GenerationRequest) =>
      res.kind = req.kind ∧ res.target_name = req.target_name ∧
        res.source_ref = req.source_ref)
      (processItemsFrom oracle i rs) rs := by
  intro i rs
  induction rs generalizing i with
  | nil => exact List.Forall₂.nil
  | cons r rs ih =>
    exact List.Forall₂.cons (generate_fields r (oracle i)) (ih (i + 1))

/-- Every result of the generation loop is produced by the client on one of
the requests. -/
theorem processItemsFrom_mem (oracle : Nat → Nat → CallResponse) :
    ∀ i rs r, r ∈ processItemsFrom oracle i rs →
      ∃ req ∈ rs, ∃ j, r = generate req (oracle j) := by
  intro i rs
  induction rs generalizing i with
  | nil => intro r hr; cases hr
  | cons q qs ih =>
    intro r hr
    rcases List.mem_cons.mp hr with rfl | hr
    · exact ⟨q, by simp, i, rfl⟩
    · rcases ih (i + 1) r hr with ⟨req, hreq, j, hj⟩
      exact ⟨req, by simp [hreq], j, hj⟩

/-- A fallback or blocked result of the client carries the marked
placeholder text. -/
theorem generate_placeholder (req : GenerationRequest)
    (resp : Nat → CallResponse)
    (h : (generate req resp).status = GStatus.fallback ∨
      (generate req resp).status = GStatus.blocked) :
    ∃ rest, (generate req resp).generated_text =
      "TODO: Add documentation for " ++ rest := by
  rcases generateGo_placeholder req resp maxGenAttempts 0 with hok | htext
  · rcases h with h | h
    · rw [generate] at h; rw [hok] at h; cases h
    · rw [generate] at h; rw [hok] at h; cases h
  · exact ⟨req.target_name, by simpa [fallbackText] using htext⟩

/-- Membership in the deduplicated list is membership in the input away from
the already-seen elements. -/
theorem mem_firstOccurAux (l : List String) :
    ∀ (seen : List String) (x : String),
      x ∈ firstOccurAux seen l ↔ (x ∈ l ∧ x ∉ seen) := by
  induction l with
  | nil => intro seen x; simp [firstOccurAux]
  | cons p ps ih =>
    intro seen x
    by_cases hp : p ∈ seen
    · rw [firstOccurAux, if_pos hp, ih]
      constructor
      · rintro ⟨hx, hns⟩
        exact ⟨by simp [hx], hns⟩
      · rintro ⟨hx, hns⟩
        rcases List.mem_cons.mp hx with rfl | hx
        · exact absurd hp hns
        · exact ⟨hx, hns⟩
    · rw [firstOccurAux, if_neg hp]
      constructor
      · intro hx
        rcases List.mem_cons.mp hx with rfl | hx
        · exact ⟨by simp, hp⟩
        · rcases (ih (p :: seen) x).mp hx with ⟨h1, h2⟩
          refine ⟨by simp [h1], fun hc => h2 (by simp [hc])⟩
      · rintro ⟨hx, hns⟩
        rcases List.mem_cons.mp hx with rfl | hx
        · exact List.mem_cons_self _ _
        · by_cases hxp : x = p
          · subst hxp; exact List.mem_cons_self _ _
          · refine List.mem_cons_of_mem _ ((ih (p :: seen) x).mpr ⟨hx, ?_⟩)
            intro hc
            rcases List.mem_cons.mp hc with h | h
            · exact hxp h
            · exact hns h

/-- The deduplicated list has no duplicates. -/
theorem nodup_firstOccurAux (l : List String) :
    ∀ seen : List String, (firstOccurAux seen l).Nodup := by
  induction l with
  | nil => intro seen; simp [firstOccurAux]
  | cons p ps ih =>
    intro seen
    by_cases hp : p ∈ seen
    · rw [firstOccurAux, if_pos hp]; exact ih seen
    · rw [firstOccurAux, if_neg hp]
      refine List.nodup_cons.mpr ⟨?_, ih (p :: seen)⟩
      intro hmem
      exact ((mem_firstOccurAux ps (p :: seen) p).mp hmem).2 (by simp)

/-- Membership in the first-occurrence list is membership in the input. -/
theorem mem_firstOccur (l : List String) (x : String) :
    x ∈ firstOccur l ↔ x ∈ l := by
  rw [firstOccur, mem_firstOccurAux]
  simp

/-- The first-occurrence list has no duplicates. -/
theorem nodup_firstOccur (l : List String) : (firstOccur l).Nodup :=
  nodup_firstOccurAux l []

/-- Filtering a list with two mutually exclusive predicates and
concatenating is a permutation of filtering with their disjunction. -/
theorem filter_disjoint_perm {α : Type} (p q : α → Bool) :
    ∀ l : List α, (∀ r ∈ l, ¬(p r = true ∧ q r = true)) →
      List.Perm (l.filter p ++ l.filter q)
        (l.filter (fun r => p r || q r)) := by
  intro l
  induction l with
  | nil => intro _; simp
  | cons a l ih =>
    intro h
    have ha := h a (by simp)
    have ih' := ih (fun r hr => h r (by simp [hr]))
    cases hpa : p a with
    | true =>
      cases hqa : q a with
      | true => exact absurd ⟨hpa, hqa⟩ ha
      | false =>
        simp only [List.filter_cons, hpa, hqa, if_pos, List.cons_append,
          Bool.true_or, if_true]
        exact List.Perm.cons a ih'
    | false =>
      cases hqa : q a with
      | true =>
        simp only [List.filter_cons, hpa, hqa, Bool.false_or, if_true]
        refine List.Perm.trans List.perm_middle ?_
        exact List.Perm.cons a ih'
      | false =>
        simp only [List.filter_cons, hpa, hqa, Bool.false_or]
        exact ih'

/-- Partitioning a list by a duplicate-free list of key values and
flattening is a permutation of keeping the entries whose key is listed. -/
theorem parts_flatten_perm {α : Type} (key : α → String) :
    ∀ (ks : List String) (l : List α), ks.Nodup →
      List.Perm
        ((ks.map (fun p => l.filter (fun r => decide (key r = p)))).flatten)
        (l.filter (fun r => decide (key r ∈ ks))) := by
  intro ks
  induction ks with
  | nil =>
    intro l _
    simp
  | cons k ks ih =>
    intro l hnd
    rw [List.nodup_cons] at hnd
    simp only [List.map_cons, List.flatten_cons]
    refine List.Perm.trans (List.Perm.append_left _ (ih l hnd.2)) ?_
    refine List.Perm.trans (filter_disjoint_perm _ _ l ?_) ?_
    · rintro r _ ⟨h1, h2⟩
      exact hnd.1 (of_decide_eq_true h1 ▸ of_decide_eq_true h2)
    · rw [List.filter_congr (fun a _ => ?_)]
      simp [List.mem_cons]

/-- The flattened per-file item lists of the assembled document are a
permutation of the input results: assembly neither drops nor duplicates. -/
theorem assembleDoc_items_perm (readmeRes : GenerationResult)
    (results : List GenerationResult) :
    List.Perm
      (((assembleDoc readmeRes results).files.map (fun fd => fd.items)).flatten)
      results := by
  unfold assembleDoc
  simp only [List.map_map]
  have hperm := parts_flatten_perm (fun r => r.source_ref.file_path)
    (firstOccur (results.map (fun r => r.source_ref.file_path))) results
    (nodup_firstOccur _)
  refine List.Perm.trans ?_ (List.Perm.trans hperm ?_)
  · apply List.Perm.of_eq
    rfl
  · apply List.Perm.of_eq
    rw [List.filter_eq_self]
    intro r hr
    simp only [decide_eq_true_eq]
    rw [mem_firstOccur]
    exact List.mem_map_of_mem _ hr

/-- Claim C3: for every request submitted to the orchestrator exactly one
result exists in the final assembled document (positionally matching the
request, with the readme stored separately), and every `fallback` or
`blocked` result still carries the marked `TODO` placeholder — no item is
dropped silently or left with empty text. -/
theorem no_silent_drops (requests : List GenerationRequest)
    (readmeReq : GenerationRequest) (oracle : Nat → Nat → CallResponse)
    (roracle : Nat → CallResponse) (hne : requests ≠ []) :
    (runBatch requests readmeReq (BatchCall.ran oracle roracle)).1.generated_docs =
      some (assembleDoc (generate readmeReq roracle)
        (processItemsFrom oracle 0 requests)) ∧
    List.Forall₂ (fun (res : GenerationResult) (req : GenerationRequest) =>
      res.kind = req.kind ∧ res.target_name = req.target_name ∧
        res.source_ref = req.source_ref)
      (processItemsFrom oracle 0 requests) requests ∧
    List.Perm
      (((assembleDoc (generate readmeReq roracle)
          (processItemsFrom oracle 0 requests)).files.map
        (fun fd => fd.items)).flatten)
      (processItemsFrom oracle 0 requests) ∧
    (assembleDoc (generate readmeReq roracle)
        (processItemsFrom oracle 0 requests)).readme =
      (generate readmeReq roracle).generated_text ∧
    (∀ r ∈ processItemsFrom oracle 0 requests,
      (r.status = GStatus.fallback ∨ r.status = GStatus.blocked) →
      ∃ rest, r.generated_text = "TODO: Add documentation for " ++ rest) := by
  refine ⟨?_, processItemsFrom_forall2 oracle 0 requests,
    assembleDoc_items_perm _ _, rfl, ?_⟩
  · cases requests with
    | nil => exact absurd rfl hne
    | cons r rs => rfl
  · intro r hr hst
    rcases processItemsFrom_mem oracle 0 requests r hr with ⟨req, _, j, rfl⟩
    exact generate_placeholder req (oracle j) hst

/-- Witness for claim C3 at a concrete one-request batch. -/
theorem no_silent_drops_witness :
    (runBatch [sampleReq] sampleReadmeReq
        (BatchCall.ran (fun _ _ => CallResponse.blocked)
          (fun _ => CallResponse.blocked))).1.generated_docs =
      some (assembleDoc
        (generate sampleReadmeReq (fun _ => CallResponse.blocked))
        (processItemsFrom (fun _ _ => CallResponse.blocked) 0 [sampleReq])) :=
  (no_silent_drops [sampleReq] sampleReadmeReq
    (fun _ _ => CallResponse.blocked) (fun _ => CallResponse.blocked)
    (List.cons_ne_nil _ _)).1

/-! ### Order preservation through enhancer and assembler -/

/-- Every per-file request points into its file. -/
theorem undocReqs_path (fs : FileStructure) (r : GenerationRequest)
    (hr : r ∈ undocReqs fs) : r.source_ref.file_path = fs.path := by
  rcases List.mem_append.mp hr with h | h
  · rcases List.mem_map.mp h with ⟨f, _, rfl⟩
    rfl
  · rcases List.mem_map.mp h with ⟨c, _, rfl⟩
    rfl

/-- The file paths of a file's requests are its path, repeated once per
undocumented entity. -/
theorem undocReqs_paths (fs : FileStructure) :
    (undocReqs fs).map (fun r => r.source_ref.file_path) =
      List.replicate (undocCount fs) fs.path := by
  rw [undocCount, ← List.map_const' (undocReqs fs) fs.path]
  exact List.map_congr_left (fun r hr => undocReqs_path fs r hr)

/-- The (path, name) pairs of a file's requests are its undocumented entity
names tagged with its path, in order. -/
theorem undocReqs_pairs (fs : FileStructure) :
    (undocReqs fs).map (fun r => (r.source_ref.file_path, r.target_name)) =
      (undocNames fs).map (fun n => (fs.path, n)) := by
  rw [undocNames, List.map_map]
  exact List.map_congr_left (fun r hr => by
    simp [Function.comp, undocReqs_path fs r hr])

/-- The generation loop preserves the (path, name) pairs of the requests. -/
theorem processItemsFrom_pairs (oracle : Nat → Nat → CallResponse) :
    ∀ i rs, (processItemsFrom oracle i rs).map
        (fun r => (r.source_ref.file_path, r.target_name)) =
      rs.map (fun r => (r.source_ref.file_path, r.target_name)) := by
  intro i rs
  induction rs generalizing i with
  | nil => rfl
  | cons r rs ih =>
    have hf := generate_fields r (oracle i)
    simp only [processItemsFrom, List.map_cons, ih (i + 1), hf.2.1, hf.2.2]

/-- The deduplication only looks at which elements were seen, not at how
often or in which order. -/
theorem firstOccurAux_congr (l : List String) :
    ∀ seen1 seen2 : List String, (∀ y, y ∈ seen1 ↔ y ∈ seen2) →
      firstOccurAux seen1 l = firstOccurAux seen2 l := by
  induction l with
  | nil => intro _ _ _; rfl
  | cons p ps ih =>
    intro seen1 seen2 hiff
    by_cases hp : p ∈ seen1
    · rw [firstOccurAux, if_pos hp, firstOccurAux,
        if_pos ((hiff p).mp hp)]
      exact ih seen1 seen2 hiff
    · rw [firstOccurAux, if_neg hp, firstOccurAux,
        if_neg (fun hc => hp ((hiff p).mpr hc))]
      refine congrArg (p :: ·) (ih _ _ ?_)
      intro y
      simp [hiff y]

/-- Repeated already-seen elements are skipped by the deduplication. -/
theorem firstOccurAux_skips (p : String) (ps : List String)
    (seen : List String) (hp : p ∈ seen) :
    ∀ n, firstOccurAux seen (List.replicate n p ++ ps) =
      firstOccurAux seen ps := by
  intro n
  induction n with
  | zero => rfl
  | succ n ih =>
    rw [List.replicate_succ, List.cons_append, firstOccurAux, if_pos hp]
    exact ih

/-- Marking an element as seen that never occurs again does not change the
deduplication. -/
theorem firstOccurAux_not_in_tail (x : String) :
    ∀ (l : List String) (seen : List String), x ∉ l →
      firstOccurAux (x :: seen) l = firstOccurAux seen l := by
  intro l
  induction l with
  | nil => intro _ _; rfl
  | cons p ps ih =>
    intro seen hx
    have hpx : p ≠ x := fun hc => hx (by simp [hc])
    have hxps : x ∉ ps := fun hc => hx (by simp [hc])
    by_cases hp : p ∈ seen
    · rw [firstOccurAux, if_pos (by simp [hp]), firstOccurAux, if_pos hp]
      exact ih seen hxps
    · rw [firstOccurAux, if_neg (by simp [hp, hpx]), firstOccurAux, if_neg hp]
      refine congrArg (p :: ·) ?_
      rw [firstOccurAux_congr ps (p :: x :: seen) (x :: p :: seen)
        (fun y => by simp; tauto)]
      exact ih (p :: seen) hxps

/-- A path occurring in the flattened per-file replicate blocks is one of
the file paths. -/
theorem mem_flatten_replicate (gs : List FileStructure) (x : String)
    (hx : x ∈ (gs.map (fun fs => List.replicate (undocCount fs) fs.path)).flatten) :
    x ∈ gs.map (fun fs => fs.path) := by
  rcases List.mem_flatten.mp hx with ⟨l, hl, hxl⟩
  rcases List.mem_map.mp hl with ⟨fs, hfs, rfl⟩
  rw [List.eq_of_mem_replicate hxl]
  exact List.mem_map_of_mem _ hfs

/-- Over blocks of repeated distinct file paths, the deduplication returns
exactly the paths of the files that contributed at least one entry, in
order. -/
theorem firstOccur_blocks :
    ∀ (files : List FileStructure) (seen : List String),
      (files.map (fun fs => fs.path)).Nodup →
      (∀ fs ∈ files, fs.path ∉ seen) →
      firstOccurAux seen
          ((files.map (fun fs => List.replicate (undocCount fs) fs.path)).flatten) =
        (files.filter (fun fs => decide (0 < undocCount fs))).map
          (fun fs => fs.path) := by
  intro files
  induction files with
  | nil => intro seen _ _; rfl
  | cons g gs ih =>
    intro seen hnd hseen
    rw [List.map_cons, List.nodup_cons] at hnd
    simp only [List.map_cons, List.flatten_cons]
    cases hc : undocCount g with
    | zero =>
      simp only [List.replicate, List.nil_append]
      rw [ih seen hnd.2 (fun fs hfs => hseen fs (by simp [hfs]))]
      rw [List.filter_cons]
      simp [hc]
    | succ n =>
      rw [List.replicate_succ, List.cons_append, firstOccurAux,
        if_neg (hseen g (by simp))]
      rw [firstOccurAux_skips g.path _ (g.path :: seen) (by simp) n]
      have hnotin : g.path ∉
          (gs.map (fun fs => List.replicate (undocCount fs) fs.path)).flatten :=
        fun hmem => hnd.1 (mem_flatten_replicate gs g.path hmem)
      rw [firstOccurAux_not_in_tail g.path _ seen hnotin]
      rw [ih seen hnd.2 (fun fs hfs => hseen fs (by simp [hfs]))]
      rw [List.filter_cons]
      simp [hc]

/-- Filtering the flattened tagged name blocks by one file's path returns
exactly that file's block when file paths are distinct. -/
theorem filter_pairBlocks :
    ∀ (files : List FileStructure),
      (files.map (fun fs => fs.path)).Nodup →
      ∀ fs ∈ files,
        ((files.map (fun f => (undocNames f).map (fun n => (f.path, n)))).flatten).filter
            (fun q => decide (q.1 = fs.path)) =
          (undocNames fs).map (fun n => (fs.path, n)) := by
  intro files
  induction files with
  | nil => intro _ fs hfs; cases hfs
  | cons g gs ih =>
    intro hnd fs hfs
    rw [List.map_cons, List.nodup_cons] at hnd
    simp only [List.map_cons, List.flatten_cons, List.filter_append]
    rcases List.mem_cons.mp hfs with rfl | hfs
    · have h1 : ((undocNames fs).map (fun n => (fs.path, n))).filter
          (fun q => decide (q.1 = fs.path)) =
          (undocNames fs).map (fun n => (fs.path, n)) := by
        rw [List.filter_eq_self]
        intro a ha
        rcases List.mem_map.mp ha with ⟨n, _, rfl⟩
        simp
      have h2 : ((gs.map (fun f => (undocNames f).map (fun n => (f.path, n)))).flatten).filter
          (fun q => decide (q.1 = fs.path)) = [] := by
        rw [List.filter_eq_nil_iff]
        intro a ha
        rcases List.mem_flatten.mp ha with ⟨l, hl, hal⟩
        rcases List.mem_map.mp hl with ⟨f, hf, rfl⟩
        rcases List.mem_map.mp hal with ⟨n, _, rfl⟩
        simp only [decide_eq_true_eq]
        intro hc
        exact hnd.1 (hc ▸ List.mem_map_of_mem _ hf)
      rw [h1, h2, List.append_nil]
    · have h1 : ((undocNames g).map (fun n => (g.path, n))).filter
          (fun q => decide (q.1 = fs.path)) = [] := by
        rw [List.filter_eq_nil_iff]
        intro a ha
        rcases List.mem_map.mp ha with ⟨n, _, rfl⟩
        simp only [decide_eq_true_eq]
        intro hc
        exact hnd.1 (hc ▸ List.mem_map_of_mem _ hfs)
      rw [h1, List.nil_append]
      exact ih hnd.2 fs hfs

/-- The generation loop preserves the file paths of the requests. -/
theorem processItemsFrom_paths (oracle : Nat → Nat → CallResponse) :
    ∀ i rs, (processItemsFrom oracle i rs).map
        (fun r => r.source_ref.file_path) =
      rs.map (fun r => r.source_ref.file_path) := by
  intro i rs
  induction rs generalizing i with
  | nil => rfl
  | cons r rs ih =>
    have hf := generate_fields r (oracle i)
    simp only [processItemsFrom, List.map_cons, ih (i + 1), hf.2.2]

/-- Filtering results on a path and reading their names factors through
their (path, name) pairs. -/
theorem filter_names_factor (l : List GenerationResult) (P : String) :
    (l.filter (fun r => decide (r.source_ref.file_path = P))).map
        (fun r => r.target_name) =
      ((l.map (fun r => (r.source_ref.file_path, r.target_name))).filter
        (fun q => decide (q.1 = P))).map Prod.snd := by
  rw [List.filter_map, List.map_map]
  rfl

/-- Claim C6: with distinct file paths, the files of the assembled document
are exactly the files that contributed at least one item, in input order,
and within each file the item names appear in the source order of the
undocumented entities (the ordering established by the structure extractor
is preserved through enhancer and assembler); and serializing an assembled
document is a pure function of its input, so equal result lists in equal
order give byte-identical JSON. -/
theorem order_preserved (repo : RepoContext) (files : List FileStructure)
    (oracle : Nat → Nat → CallResponse) (roracle : Nat → CallResponse)
    (hnd : (files.map (fun fs => fs.path)).Nodup) :
    (runPipeline repo files oracle roracle).files.map
        (fun fd => (fd.file_path, fd.items.map (fun r => r.target_name))) =
      (files.filter (fun fs => decide (0 < undocCount fs))).map
        (fun fs => (fs.path, undocNames fs)) ∧
    (∀ d1 d2 : Document, d1 = d2 → serializeDoc d1 = serializeDoc d2) := by
  refine ⟨?_, fun d1 d2 h => by rw [h]⟩
  have hpairs : (processItemsFrom oracle 0 ((files.map undocReqs).flatten)).map
      (fun r => (r.source_ref.file_path, r.target_name)) =
      (files.map (fun f => (undocNames f).map (fun n => (f.path, n)))).flatten := by
    rw [processItemsFrom_pairs, List.map_flatten, List.map_map]
    exact congrArg List.flatten
      (List.map_congr_left (fun f _ => undocReqs_pairs f))
  have hpaths : (processItemsFrom oracle 0 ((files.map undocReqs).flatten)).map
      (fun r => r.source_ref.file_path) =
      (files.map (fun f => List.replicate (undocCount f) f.path)).flatten := by
    rw [processItemsFrom_paths, List.map_flatten, List.map_map]
    exact congrArg List.flatten
      (List.map_congr_left (fun f _ => undocReqs_paths f))
  have hfo : firstOccur
      ((processItemsFrom oracle 0 ((files.map undocReqs).flatten)).map
        (fun r => r.source_ref.file_path)) =
      (files.filter (fun fs => decide (0 < undocCount fs))).map
        (fun fs => fs.path) := by
    rw [hpaths]
    exact firstOccur_blocks files [] hnd (fun _ _ => List.not_mem_nil _)
  have hstep : (runPipeline repo files oracle roracle).files.map
      (fun fd => (fd.file_path, fd.items.map (fun r => r.target_name))) =
      (firstOccur
        ((processItemsFrom oracle 0 ((files.map undocReqs).flatten)).map
          (fun r => r.source_ref.file_path))).map
        (fun p => (p,
          ((processItemsFrom oracle 0 ((files.map undocReqs).flatten)).filter
            (fun r => decide (r.source_ref.file_path = p))).map
            (fun r => r.target_name))) := by
    show ((firstOccur _).map
        (fun p => ({ file_path := p, items := _ } : FileDoc))).map _ = _
    rw [List.map_map]
    rfl
  rw [hstep, hfo, List.map_map]
  refine List.map_congr_left (fun fs hfs => ?_)
  have hfs' : fs ∈ files := (List.mem_filter.mp hfs).1
  simp only [Function.comp_apply]
  refine congrArg (fun x => (fs.path, x)) ?_
  rw [filter_names_factor _ fs.path, hpairs,
    filter_pairBlocks files hnd fs hfs', List.map_map]
  simp

/-- Witness for claim C6 at a concrete single-file batch. -/
theorem order_preserved_witness :
    (runPipeline sampleRepo [sampleFile] (fun _ _ => CallResponse.blocked)
        (fun _ => CallResponse.blocked)).files.map
        (fun fd => (fd.file_path, fd.items.map (fun r => r.target_name))) =
      ([sampleFile].filter (fun fs => decide (0 < undocCount fs))).map
        (fun fs => (fs.path, undocNames fs)) :=
  (order_preserved sampleRepo [sampleFile] (fun _ _ => CallResponse.blocked)
    (fun _ => CallResponse.blocked) (by decide)).1

end CodeDoc
